import Mathlib

set_option maxRecDepth 4000

/-
Verification of the PDFSearch repository core (scripts/ingest.py, scripts/query.py).

The Python source is shallowly embedded:
* strings are `List Char` where character-level slicing matters (chunking), `String` elsewhere;
* Python slices `text[a:b]` become `(text.drop a).take (b - a)`;
* `str.strip()` becomes `trim` (ASCII whitespace, as in the inputs the scripts handle);
* Python floats (vector distances, cross-encoder scores) are modelled as rationals;
  only order comparisons on them occur in the code;
* external capabilities (vector store, cross-encoder, LLM) are injected as function
  parameters; a fallible LLM call is `Except String String`;
* an in-place stable `list.sort(key=..., reverse=True)` is modelled by the stable
  `List.insertionSort` with the reversed order, and the mutated caller list is
  returned explicitly as the first component of `rerank`;
* the `while` loop of `chunk_text` is embedded with explicit fuel; the fuel chosen by
  `chunk_text` is proved sufficient (the loop result is fuel-independent, see
  `chunkLoop_fuel_irrelevant`).
-/

namespace PDFSearch

/-! ### Chunking configuration (ingest.py lines 30-33) -/

def CHUNK_SIZE_TOKENS : Nat := 512
def CHUNK_OVERLAP_TOKENS : Nat := 50
def MIN_CHUNK_TOKENS : Nat := 50
def APPROX_CHARS_PER_TOKEN : Nat := 4

def chunk_size_chars : Nat := CHUNK_SIZE_TOKENS * APPROX_CHARS_PER_TOKEN

def overlap_chars : Nat := CHUNK_OVERLAP_TOKENS * APPROX_CHARS_PER_TOKEN

def min_chunk_chars : Nat := MIN_CHUNK_TOKENS * APPROX_CHARS_PER_TOKEN

/-! ### Python string primitives -/

/-- ASCII whitespace, as stripped by Python `str.strip()`. -/
def isPySpace (c : Char) : Bool :=
  c = ' ' || c = '\t' || c = '\n' || c = '\r' || c = '\x0b' || c = '\x0c'

def trimLeft (l : List Char) : List Char := l.dropWhile isPySpace

def trimRight (l : List Char) : List Char := (l.reverse.dropWhile isPySpace).reverse

/-- Python `str.strip()`. -/
def trim (l : List Char) : List Char := trimRight (trimLeft l)

/-- Python slice `text[a:b]` (with the clamping Python slices perform). -/
def pySlice (l : List Char) (a b : Nat) : List Char := (l.drop a).take (b - a)

/-- Does `pat` occur in `region` at position `i`? -/
def matchesAt (region pat : List Char) (i : Nat) : Bool := pat.isPrefixOf (region.drop i)

/-- Scan positions `n, n-1, ..., 0` for the first (i.e. rightmost) match. -/
def rfindFrom (region pat : List Char) : Nat → Option Nat
  | 0 => if matchesAt region pat 0 then some 0 else none
  | n + 1 => if matchesAt region pat (n + 1) then some (n + 1) else rfindFrom region pat n

/-- Python `region.rfind(pat)`: the rightmost occurrence of `pat` in `region`. -/
def rfind (region pat : List Char) : Option Nat := rfindFrom region pat region.length

/-- The ordered separator preference list of ingest.py line 96. -/
def sentenceSeps : List (List Char) :=
  [['.', ' '], ['.', '\n'], ['?', ' '], ['!', '\n'], ['!', ' '], ['?', '\n']]

/-- The `for sep in [...]` loop of ingest.py lines 96-100: try the separators in
order and stop at the first one that occurs anywhere in the region, reporting the
rightmost occurrence of that separator. -/
def findSepIn (region : List Char) : List (List Char) → Option (Nat × List Char)
  | [] => none
  | sep :: rest =>
    match rfind region sep with
    | some i => some (i, sep)
    | none => findSepIn region rest

/-- The search window of ingest.py lines 91-93: the region
`text[search_start:search_end]` around the tentative end. -/
def searchRegion (text : List Char) (start : Nat) : List Char :=
  pySlice text (max (start + chunk_size_chars - 100) start)
    (min (start + chunk_size_chars + 100) text.length)

/-- ingest.py lines 86-100: the end offset of the chunk that starts at `start`,
including the sentence-boundary snapping. -/
def computeEnd (text : List Char) (start : Nat) : Nat :=
  if start + chunk_size_chars < text.length then
    match findSepIn (searchRegion text start) sentenceSeps with
    | some (i, sep) => max (start + chunk_size_chars - 100) start + i + sep.length
    | none => start + chunk_size_chars
  else start + chunk_size_chars

/-- ingest.py lines 36-42. -/
structure Chunk where
  text : List Char
  filename : String
  page_numbers : List Nat
  chunk_index : Nat
  deriving DecidableEq, Repr

/-- The `while` loop of ingest.py lines 85-117, with explicit fuel. -/
def chunkLoop (fname : String) (text : List Char) : Nat → Nat → Nat → List Chunk
  | 0, _, _ => []
  | fuel + 1, start, chunk_index =>
    if start < text.length then
      let e := computeEnd text start
      let ctext := trim (pySlice text start e)
      let emitted : List Chunk :=
        if min_chunk_chars ≤ ctext.length then
          [{ text := ctext, filename := fname, page_numbers := [1], chunk_index := chunk_index }]
        else []
      let idx := if min_chunk_chars ≤ ctext.length then chunk_index + 1 else chunk_index
      if (text.length : Int) - (min_chunk_chars : Int) ≤ ((e - overlap_chars : Nat) : Int) then
        emitted
      else emitted ++ chunkLoop fname text fuel (e - overlap_chars) idx
    else []

/-- The start offsets at which the loop of ingest.py lines 85-117 emits chunks
(same control structure as `chunkLoop`). -/
def chunkLoopStarts (text : List Char) : Nat → Nat → List Nat
  | 0, _ => []
  | fuel + 1, start =>
    if start < text.length then
      let e := computeEnd text start
      let ctext := trim (pySlice text start e)
      let emitted : List Nat := if min_chunk_chars ≤ ctext.length then [start] else []
      if (text.length : Int) - (min_chunk_chars : Int) ≤ ((e - overlap_chars : Nat) : Int) then
        emitted
      else emitted ++ chunkLoopStarts text fuel (e - overlap_chars)
    else []

/-- ingest.py lines 64-119, `chunk_text`. -/
def chunk_text (text : List Char) (filename : String) : List Chunk :=
  let t := trim text
  if t.length < min_chunk_chars then []
  else chunkLoop filename t t.length 0 0

/-! ### Record ids (ingest.py line 202) -/

def digitChar (d : Nat) : Char :=
  match d with
  | 0 => '0'
  | 1 => '1'
  | 2 => '2'
  | 3 => '3'
  | 4 => '4'
  | 5 => '5'
  | 6 => '6'
  | 7 => '7'
  | 8 => '8'
  | 9 => '9'
  | _ => '*'

def natReprAux : Nat → Nat → List Char
  | 0, _ => []
  | fuel + 1, n =>
    if n < 10 then [digitChar n] else natReprAux fuel (n / 10) ++ [digitChar (n % 10)]

/-- Decimal digits of `n`, as Python `str(n)` renders a nonnegative int. -/
def natRepr (n : Nat) : List Char := natReprAux (n + 1) n

/-- ingest.py line 202: the stored record id `f"{chunk.filename}_{chunk.chunk_index}"`. -/
def mkId (filename : String) (chunk_index : Nat) : String :=
  String.mk (filename.data ++ '_' :: natRepr chunk_index)

/-! ### Ingestion batch loop (ingest.py lines 162-209) -/

/-- Mutable state of the ingestion loop: the failure list and the accumulated chunks. -/
structure IngestState where
  failed_files : List (String × String)
  all_chunks : List Chunk
  deriving DecidableEq, Repr

/-- One iteration of the `for pdf_path in pdf_files` loop (ingest.py lines 167-189).
A document is a filename together with the outcome of `extract_text_from_pdf`
(the extracted full text, or the raised exception rendered as a message). -/
def processDoc (st : IngestState) (doc : String × Except String (List Char)) : IngestState :=
  match doc.2 with
  | Except.error e => { st with failed_files := st.failed_files ++ [(doc.1, e)] }
  | Except.ok full_text =>
    if (trim full_text).isEmpty then
      { st with failed_files := st.failed_files ++ [(doc.1, "No text content")] }
    else
      let chunks := chunk_text full_text doc.1
      if chunks.isEmpty then
        { st with failed_files := st.failed_files ++ [(doc.1, "Text too short")] }
      else { st with all_chunks := st.all_chunks ++ chunks }

/-- The whole batch loop of ingest.py lines 162-189. -/
def ingest_pdfs (docs : List (String × Except String (List Char))) : IngestState :=
  docs.foldl processDoc { failed_files := [], all_chunks := [] }

/-- The chunks a single document contributes to `all_chunks`. -/
def docChunks (doc : String × Except String (List Char)) : List Chunk :=
  match doc.2 with
  | Except.error _ => []
  | Except.ok full_text =>
    if (trim full_text).isEmpty then [] else chunk_text full_text doc.1

/-- The failure record a single document contributes to `failed_files`. -/
def docFailure (doc : String × Except String (List Char)) : Option (String × String) :=
  match doc.2 with
  | Except.error e => some (doc.1, e)
  | Except.ok full_text =>
    if (trim full_text).isEmpty then some (doc.1, "No text content")
    else if (chunk_text full_text doc.1).isEmpty then some (doc.1, "Text too short")
    else none

def batch_size : Nat := 100

/-- ingest.py lines 196-209: the ids stored across all batches of 100, in order. -/
def storedIds (chunks : List Chunk) : List String :=
  (List.range ((chunks.length + (batch_size - 1)) / batch_size)).flatMap
    (fun b => ((chunks.drop (b * batch_size)).take batch_size).map
      (fun c => mkId c.filename c.chunk_index))

/-! ### Query pipeline (query.py) -/

def TOP_K_SEARCH : Nat := 20

def TOP_K_RERANK : Nat := 5

def DISTANCE_THRESHOLD : ℚ := 1

/-- query.py lines 37-44. -/
structure SearchResult where
  text : String
  filename : String
  chunk_index : Nat
  distance : ℚ
  rerank_score : ℚ := 0
  deriving DecidableEq, Repr

/-- Descending order on rerank scores: `a` goes before `b`. -/
def scoreGE (a b : SearchResult) : Prop := b.rerank_score ≤ a.rerank_score

instance : DecidableRel scoreGE :=
  fun a b => inferInstanceAs (Decidable (b.rerank_score ≤ a.rerank_score))

instance : IsTotal SearchResult scoreGE :=
  ⟨fun a b => le_total b.rerank_score a.rerank_score⟩

instance : IsTrans SearchResult scoreGE :=
  ⟨fun _ _ _ h1 h2 => le_trans h2 h1⟩

/-- query.py lines 97-126, `QueryPipeline.rerank`. The cross-encoder is the injected
`score`. Python mutates the caller's list (assigns every `rerank_score`, then sorts
in place, stably, by descending score) and returns its first `top_k` elements; the
first component below is the caller's list after the call, the second the returned
value. -/
def rerank (score : String → String → ℚ) (query : String)
    (results : List SearchResult) (top_k : Nat) : List SearchResult × List SearchResult :=
  if results.isEmpty then (results, [])
  else
    let scored := results.map (fun r => { r with rerank_score := score query r.text })
    let sorted := List.insertionSort scoreGE scored
    (sorted, sorted.take top_k)

def noRelevantMsg : String := "No relevant information found in the documents."

def noKeyMsg : String := "[Error: OpenAI API key not configured]"

def systemPrompt : String :=
  "You are a helpful assistant that answers questions based on provided document excerpts.\n\nRules:\n1. Answer ONLY using information from the provided context\n2. Cite the source filename for every statement (e.g., \"According to Report.pdf, ...\")\n3. If the context doesn\x27t contain enough information, say so\n4. Be concise and direct"

/-- query.py lines 150-154: the numbered context block. -/
def buildContext (results : List SearchResult) : String :=
  String.intercalate "\n\n---\n\n"
    ((List.enumFrom 1 results).map
      (fun p => "[Source " ++ String.mk (natRepr p.1) ++ ": " ++ p.2.filename ++ "]\n" ++ p.2.text))

/-- query.py lines 165-173. -/
def userPrompt (query context : String) : String :=
  "Context from documents:\n\n" ++ context ++ "\n\n---\n\nQuestion: " ++ query ++
    "\n\nPlease answer the question using only the information provided above. Cite the filename for each statement."

/-- query.py lines 128-188, `QueryPipeline.generate`. `hasClient` is whether an
OpenAI client was configured; the LLM call is the injected fallible `llm`. -/
def generate (hasClient : Bool) (llm : String → String → Except String String)
    (query : String) (results : List SearchResult) : String :=
  if !hasClient then noKeyMsg
  else
    match results with
    | [] => noRelevantMsg
    | best :: _ =>
      if DISTANCE_THRESHOLD < best.distance ∧ best.rerank_score < 0 then noRelevantMsg
      else
        match llm systemPrompt (userPrompt query (buildContext results)) with
        | Except.ok s => s
        | Except.error e => "[Error generating response: " ++ e ++ "]"

/-- The dict returned by query.py lines 190-226. -/
structure QueryOutcome where
  answer : String
  search_results : Option (List (String × ℚ))
  reranked_results : Option (List (String × ℚ × String))
  deriving DecidableEq, Repr

/-- query.py lines 190-226, `QueryPipeline.query`. Stage 1 (vector search) is the
injected `search_results`. In verbose mode line 209 evaluates
`reranked_results[0].filename`, which raises `IndexError` on an empty list; a raised
exception is the `Except.error` case. Note that by line 217 the list bound to
`search_results` has already been sorted in place by `rerank`, hence `rr.1` there. -/
def queryPipeline (hasClient : Bool) (llm : String → String → Except String String)
    (score : String → String → ℚ) (search_results : List SearchResult)
    (user_query : String) (verbose : Bool) : Except String QueryOutcome :=
  let rr := rerank score user_query search_results TOP_K_RERANK
  if verbose && rr.2.isEmpty then Except.error "IndexError: list index out of range"
  else
    Except.ok
      { answer := generate hasClient llm user_query rr.2
        search_results :=
          if verbose then some ((rr.1.take 5).map (fun r => (r.filename, r.distance))) else none
        reranked_results :=
          if verbose then
            some (rr.2.map (fun r => (r.filename, r.rerank_score, String.take r.text 100)))
          else none }

/-! ### Elementary facts about the configuration constants -/

lemma chunk_size_chars_eq : chunk_size_chars = 2048 := rfl

lemma overlap_chars_eq : overlap_chars = 200 := rfl

lemma min_chunk_chars_eq : min_chunk_chars = 200 := rfl

/-! ### Properties of `trim` -/

lemma dropWhile_head_false {p : Char → Bool} :
    ∀ {l : List Char} {a : Char} {t : List Char}, l.dropWhile p = a :: t → p a = false := by
  intro l
  induction l with
  | nil => intro a t h; simp [List.dropWhile] at h
  | cons x xs ih =>
    intro a t h
    rw [List.dropWhile_cons] at h
    by_cases hx : p x
    · exact ih (by simpa [hx] using h)
    · rw [if_neg hx] at h
      injection h with h1 h2
      subst h1
      simpa using hx

lemma dropWhile_eq_self_of_head {p : Char → Bool} {l : List Char}
    (h : ∀ a t, l = a :: t → p a = false) : l.dropWhile p = l := by
  cases l with
  | nil => rfl
  | cons a t => rw [List.dropWhile_cons, h a t rfl]; simp

lemma dropWhile_idem (p : Char → Bool) (l : List Char) :
    (l.dropWhile p).dropWhile p = l.dropWhile p :=
  dropWhile_eq_self_of_head (fun _ _ h => dropWhile_head_false h)

lemma dropWhile_eq_drop (p : Char → Bool) (l : List Char) :
    ∃ k, l.dropWhile p = l.drop k := by
  induction l with
  | nil => exact ⟨0, rfl⟩
  | cons a t ih =>
    rw [List.dropWhile_cons]
    by_cases h : p a
    · obtain ⟨k, hk⟩ := ih
      exact ⟨k + 1, by simp [h, hk]⟩
    · exact ⟨0, by simp [h]⟩

lemma getLast?_dropWhile_of_ne_nil {p : Char → Bool} {l : List Char}
    (h : l.dropWhile p ≠ []) : (l.dropWhile p).getLast? = l.getLast? := by
  obtain ⟨k, hk⟩ := dropWhile_eq_drop p l
  rw [hk] at h ⊢
  rw [List.getLast?_drop]
  have hlt : ¬ l.length ≤ k := fun hle => h (List.drop_eq_nil_of_le hle)
  simp [hlt]

lemma trimRight_head? {l : List Char} (h : trimRight l ≠ []) :
    (trimRight l).head? = l.head? := by
  unfold trimRight at h ⊢
  rw [List.head?_reverse, getLast?_dropWhile_of_ne_nil, List.getLast?_reverse]
  intro hnil
  exact h (by rw [hnil]; rfl)

lemma trimRight_idem (l : List Char) : trimRight (trimRight l) = trimRight l := by
  unfold trimRight
  rw [List.reverse_reverse, dropWhile_idem]

lemma trimLeft_of_head_false {l : List Char}
    (h : ∀ a t, l = a :: t → isPySpace a = false) : trimLeft l = l :=
  dropWhile_eq_self_of_head h

lemma trimLeft_idem (l : List Char) : trimLeft (trimLeft l) = trimLeft l :=
  dropWhile_idem isPySpace l

lemma trimLeft_trimRight_of {y : List Char} (hy : trimLeft y = y) :
    trimLeft (trimRight y) = trimRight y := by
  apply trimLeft_of_head_false
  intro a t htr
  have hhead : (trimRight y).head? = y.head? := trimRight_head? (by rw [htr]; simp)
  rw [htr] at hhead
  cases y with
  | nil => simp at hhead
  | cons b s =>
    have hab : a = b := by simpa using hhead
    subst hab
    unfold trimLeft at hy
    rw [List.dropWhile_cons] at hy
    by_cases hb : isPySpace a
    · exfalso
      obtain ⟨k, hk⟩ := dropWhile_eq_drop isPySpace s
      rw [if_pos hb, hk] at hy
      have hlen := congrArg List.length hy
      simp at hlen
      omega
    · simpa using hb

lemma trim_idem (l : List Char) : trim (trim l) = trim l := by
  unfold trim
  rw [trimLeft_trimRight_of (trimLeft_idem l), trimRight_idem]

/-! ### Properties of `rfind` and `findSepIn` -/

lemma rfindFrom_some {region pat : List Char} :
    ∀ {n j}, rfindFrom region pat n = some j →
      matchesAt region pat j = true ∧ j ≤ n ∧
        ∀ k, j < k → k ≤ n → matchesAt region pat k = false := by
  intro n
  induction n with
  | zero =>
    intro j h
    unfold rfindFrom at h
    by_cases hm : matchesAt region pat 0
    · rw [if_pos hm] at h
      obtain rfl : (0 : Nat) = j := by simpa using h
      exact ⟨hm, Nat.le_refl 0, fun k hk hk2 => by omega⟩
    · rw [if_neg hm] at h
      exact absurd h (by simp)
  | succ n ih =>
    intro j h
    unfold rfindFrom at h
    by_cases hm : matchesAt region pat (n + 1)
    · rw [if_pos hm] at h
      obtain rfl : n + 1 = j := by simpa using h
      exact ⟨hm, Nat.le_refl _, fun k hk hk2 => by omega⟩
    · rw [if_neg hm] at h
      obtain ⟨h1, h2, h3⟩ := ih h
      refine ⟨h1, h2.trans (Nat.le_succ n), fun k hk hk2 => ?_⟩
      rcases Nat.lt_or_ge k (n + 1) with hlt | hge
      · exact h3 k hk (by omega)
      · have hkeq : k = n + 1 := by omega
        rw [hkeq]
        simpa using hm

lemma rfindFrom_none {region pat : List Char} :
    ∀ {n}, rfindFrom region pat n = none → ∀ k, k ≤ n → matchesAt region pat k = false := by
  intro n
  induction n with
  | zero =>
    intro h k hk
    unfold rfindFrom at h
    by_cases hm : matchesAt region pat 0
    · rw [if_pos hm] at h; exact absurd h (by simp)
    · have hk0 : k = 0 := by omega
      rw [hk0]; simpa using hm
  | succ n ih =>
    intro h k hk
    unfold rfindFrom at h
    by_cases hm : matchesAt region pat (n + 1)
    · rw [if_pos hm] at h; exact absurd h (by simp)
    · rw [if_neg hm] at h
      rcases Nat.lt_or_ge k (n + 1) with hlt | hge
      · exact ih h k (by omega)
      · have hkeq : k = n + 1 := by omega
        rw [hkeq]; simpa using hm

lemma matchesAt_gt_len {region : List Char} {c : Char} {cs : List Char} {i : Nat}
    (h : region.length ≤ i) : matchesAt region (c :: cs) i = false := by
  unfold matchesAt
  rw [List.drop_eq_nil_of_le h]
  rfl

lemma rfind_some {region : List Char} {c : Char} {cs : List Char} {j : Nat}
    (h : rfind region (c :: cs) = some j) :
    matchesAt region (c :: cs) j = true ∧ ∀ k, j < k → matchesAt region (c :: cs) k = false := by
  obtain ⟨h1, _, h3⟩ := rfindFrom_some h
  refine ⟨h1, fun k hk => ?_⟩
  rcases le_or_lt k region.length with hle | hgt
  · exact h3 k hk hle
  · exact matchesAt_gt_len (Nat.le_of_lt hgt)

lemma rfind_none {region : List Char} {c : Char} {cs : List Char}
    (h : rfind region (c :: cs) = none) : ∀ k, matchesAt region (c :: cs) k = false := by
  intro k
  rcases le_or_lt k region.length with hle | hgt
  · exact rfindFrom_none h k hle
  · exact matchesAt_gt_len (Nat.le_of_lt hgt)

lemma rfind_exists_of_matches {region : List Char} {c : Char} {cs : List Char}
    (h : ∃ j, matchesAt region (c :: cs) j = true) : ∃ i, rfind region (c :: cs) = some i := by
  cases hr : rfind region (c :: cs) with
  | some i => exact ⟨i, rfl⟩
  | none =>
    obtain ⟨j, hj⟩ := h
    exact absurd hj (by rw [rfind_none hr j]; simp)

lemma findSepIn_none {region : List Char} :
    ∀ {seps}, findSepIn region seps = none → ∀ sep ∈ seps, rfind region sep = none := by
  intro seps
  induction seps with
  | nil => intro _ sep hm; exact absurd hm (by simp)
  | cons s rest ih =>
    intro h sep hmem
    unfold findSepIn at h
    cases hr : rfind region s with
    | some i => rw [hr] at h; exact absurd h (by simp)
    | none =>
      rw [hr] at h
      rcases List.mem_cons.mp hmem with rfl | hm
      · exact hr
      · exact ih h sep hm

lemma findSepIn_some {region : List Char} :
    ∀ {seps : List (List Char)} {i : Nat} {sep : List Char},
      findSepIn region seps = some (i, sep) →
      ∃ pre post, seps = pre ++ sep :: post ∧ (∀ s ∈ pre, rfind region s = none) ∧
        rfind region sep = some i := by
  intro seps
  induction seps with
  | nil => intro i sep h; exact absurd h (by simp [findSepIn])
  | cons s rest ih =>
    intro i sep h
    unfold findSepIn at h
    cases hr : rfind region s with
    | some j =>
      rw [hr] at h
      obtain ⟨rfl, rfl⟩ : j = i ∧ s = sep := by simpa using h
      exact ⟨[], rest, rfl, by simp, hr⟩
    | none =>
      rw [hr] at h
      obtain ⟨pre, post, rfl, hpre, hsep⟩ := ih h
      refine ⟨s :: pre, post, rfl, ?_, hsep⟩
      intro x hx
      rcases List.mem_cons.mp hx with rfl | hx'
      · exact hr
      · exact hpre x hx'

lemma findSepIn_first {region : List Char} :
    ∀ {pre : List (List Char)} {sep : List Char} {post : List (List Char)} {i : Nat},
      (∀ s ∈ pre, rfind region s = none) → rfind region sep = some i →
      findSepIn region (pre ++ sep :: post) = some (i, sep) := by
  intro pre
  induction pre with
  | nil =>
    intro sep post i _ hsep
    rw [List.nil_append]
    simp only [findSepIn]
    rw [hsep]
  | cons s pre' ih =>
    intro sep post i hnone hsep
    rw [List.cons_append]
    simp only [findSepIn]
    rw [hnone s (List.mem_cons_self s pre')]
    exact ih (fun x hx => hnone x (List.mem_cons_of_mem _ hx)) hsep

/-! ### Bounds on `computeEnd` -/

lemma computeEnd_ge (text : List Char) (start : Nat) :
    start + (chunk_size_chars - 100) ≤ computeEnd text start := by
  have hc : chunk_size_chars = 2048 := rfl
  unfold computeEnd
  split
  · split
    · rename_i i sep heq
      have hmax : start + chunk_size_chars - 100 ≤ max (start + chunk_size_chars - 100) start :=
        Nat.le_max_left _ _
      omega
    · omega
  · omega

lemma computeEnd_gt (text : List Char) (start : Nat) : start < computeEnd text start := by
  have h := computeEnd_ge text start
  have hc : chunk_size_chars = 2048 := rfl
  omega

/-! ### The chunking loop -/

lemma chunkLoop_mem {fname : String} {text : List Char} :
    ∀ {fuel start idx} {c : Chunk}, c ∈ chunkLoop fname text fuel start idx →
      min_chunk_chars ≤ c.text.length ∧ c.filename = fname := by
  intro fuel
  induction fuel with
  | zero => intro start idx c h; simp [chunkLoop] at h
  | succ fuel ih =>
    intro start idx c h
    simp only [chunkLoop] at h
    by_cases hs : start < text.length
    case neg => rw [if_neg hs] at h; simp at h
    rw [if_pos hs] at h
    by_cases hemit : min_chunk_chars ≤ (trim (pySlice text start (computeEnd text start))).length
    · simp only [if_pos hemit] at h
      by_cases hbr : (text.length : Int) - (min_chunk_chars : Int)
          ≤ ((computeEnd text start - overlap_chars : Nat) : Int)
      · rw [if_pos hbr] at h
        simp at h
        subst h
        exact ⟨hemit, rfl⟩
      · rw [if_neg hbr] at h
        rcases List.mem_append.mp h with h1 | h2
        · simp at h1
          subst h1
          exact ⟨hemit, rfl⟩
        · exact ih h2
    · simp only [if_neg hemit] at h
      by_cases hbr : (text.length : Int) - (min_chunk_chars : Int)
          ≤ ((computeEnd text start - overlap_chars : Nat) : Int)
      · rw [if_pos hbr] at h
        simp at h
      · rw [if_neg hbr] at h
        rw [List.nil_append] at h
        exact ih h

lemma chunkLoop_indices {fname : String} {text : List Char} :
    ∀ {fuel start idx},
      (chunkLoop fname text fuel start idx).map Chunk.chunk_index
        = List.range' idx (chunkLoop fname text fuel start idx).length := by
  intro fuel
  induction fuel with
  | zero => intro start idx; simp [chunkLoop]
  | succ fuel ih =>
    intro start idx
    simp only [chunkLoop]
    by_cases hs : start < text.length
    case neg => simp [hs]
    rw [if_pos hs]
    by_cases hemit : min_chunk_chars ≤ (trim (pySlice text start (computeEnd text start))).length
    · simp only [if_pos hemit]
      by_cases hbr : (text.length : Int) - (min_chunk_chars : Int)
          ≤ ((computeEnd text start - overlap_chars : Nat) : Int)
      · rw [if_pos hbr]
        simp [List.range'_succ]
      · rw [if_neg hbr]
        rw [List.map_append, ih]
        simp [List.range'_succ]
    · simp only [if_neg hemit]
      by_cases hbr : (text.length : Int) - (min_chunk_chars : Int)
          ≤ ((computeEnd text start - overlap_chars : Nat) : Int)
      · rw [if_pos hbr]
        simp
      · rw [if_neg hbr]
        exact ih

lemma chunk_progress (text : List Char) (start : Nat) :
    start + 1748 ≤ computeEnd text start - overlap_chars := by
  have h := computeEnd_ge text start
  have hc : chunk_size_chars = 2048 := rfl
  have ho : overlap_chars = 200 := rfl
  omega

lemma chunkLoop_fuel_irrelevant {fname : String} {text : List Char} :
    ∀ {f g start idx}, text.length - start ≤ f → text.length - start ≤ g →
      chunkLoop fname text f start idx = chunkLoop fname text g start idx := by
  intro f
  induction f with
  | zero =>
    intro g start idx hf _
    have hs : ¬ start < text.length := by omega
    cases g with
    | zero => rfl
    | succ g => simp [chunkLoop, hs]
  | succ f ih =>
    intro g start idx hf hg
    by_cases hs : start < text.length
    · cases g with
      | zero => omega
      | succ g =>
        simp only [chunkLoop, if_pos hs]
        by_cases hbr : (text.length : Int) - (min_chunk_chars : Int)
            ≤ ((computeEnd text start - overlap_chars : Nat) : Int)
        · rw [if_pos hbr, if_pos hbr]
        · rw [if_neg hbr, if_neg hbr]
          congr 1
          have hprog := chunk_progress text start
          exact ih (by omega) (by omega)
    · cases g with
      | zero => simp [chunkLoop, hs]
      | succ g => simp [chunkLoop, hs]

lemma chunkLoop_length_starts {fname : String} {text : List Char} :
    ∀ {fuel start idx},
      (chunkLoop fname text fuel start idx).length = (chunkLoopStarts text fuel start).length := by
  intro fuel
  induction fuel with
  | zero => intro start idx; rfl
  | succ fuel ih =>
    intro start idx
    simp only [chunkLoop, chunkLoopStarts]
    by_cases hs : start < text.length
    case neg => simp [hs]
    rw [if_pos hs, if_pos hs]
    by_cases hemit : min_chunk_chars ≤ (trim (pySlice text start (computeEnd text start))).length
    · simp only [if_pos hemit]
      by_cases hbr : (text.length : Int) - (min_chunk_chars : Int)
          ≤ ((computeEnd text start - overlap_chars : Nat) : Int)
      · rw [if_pos hbr, if_pos hbr]
        rfl
      · rw [if_neg hbr, if_neg hbr]
        simp [ih]
    · simp only [if_neg hemit]
      by_cases hbr : (text.length : Int) - (min_chunk_chars : Int)
          ≤ ((computeEnd text start - overlap_chars : Nat) : Int)
      · rw [if_pos hbr, if_pos hbr]
        rfl
      · rw [if_neg hbr, if_neg hbr]
        simp [ih]

lemma chunkLoopStarts_lb {text : List Char} :
    ∀ {fuel start}, ∀ s ∈ chunkLoopStarts text fuel start, start ≤ s := by
  intro fuel
  induction fuel with
  | zero => intro start s h; simp [chunkLoopStarts] at h
  | succ fuel ih =>
    intro start s h
    simp only [chunkLoopStarts] at h
    by_cases hs : start < text.length
    case neg => rw [if_neg hs] at h; simp at h
    rw [if_pos hs] at h
    have hprog := chunk_progress text start
    by_cases hemit : min_chunk_chars ≤ (trim (pySlice text start (computeEnd text start))).length
    · simp only [if_pos hemit] at h
      by_cases hbr : (text.length : Int) - (min_chunk_chars : Int)
          ≤ ((computeEnd text start - overlap_chars : Nat) : Int)
      · rw [if_pos hbr] at h
        simp at h
        omega
      · rw [if_neg hbr] at h
        rcases List.mem_append.mp h with h1 | h2
        · simp at h1; omega
        · have := ih s h2
          omega
    · simp only [if_neg hemit] at h
      by_cases hbr : (text.length : Int) - (min_chunk_chars : Int)
          ≤ ((computeEnd text start - overlap_chars : Nat) : Int)
      · rw [if_pos hbr] at h
        simp at h
      · rw [if_neg hbr, List.nil_append] at h
        have := ih s h
        omega

lemma chunkLoopStarts_sorted {text : List Char} :
    ∀ {fuel start}, (chunkLoopStarts text fuel start).Pairwise (· < ·) := by
  intro fuel
  induction fuel with
  | zero => intro start; simp [chunkLoopStarts]
  | succ fuel ih =>
    intro start
    simp only [chunkLoopStarts]
    by_cases hs : start < text.length
    case neg => simp [hs]
    rw [if_pos hs]
    have hprog := chunk_progress text start
    by_cases hemit : min_chunk_chars ≤ (trim (pySlice text start (computeEnd text start))).length
    · simp only [if_pos hemit]
      by_cases hbr : (text.length : Int) - (min_chunk_chars : Int)
          ≤ ((computeEnd text start - overlap_chars : Nat) : Int)
      · rw [if_pos hbr]
        simp
      · rw [if_neg hbr]
        rw [List.singleton_append, List.pairwise_cons]
        refine ⟨fun s' hs' => ?_, ih⟩
        have := chunkLoopStarts_lb s' hs'
        omega
    · simp only [if_neg hemit]
      by_cases hbr : (text.length : Int) - (min_chunk_chars : Int)
          ≤ ((computeEnd text start - overlap_chars : Nat) : Int)
      · rw [if_pos hbr]
        simp
      · rw [if_neg hbr, List.nil_append]
        exact ih

/-! ### `chunk_text` -/

lemma chunk_text_mem {text : List Char} {fname : String} {c : Chunk}
    (h : c ∈ chunk_text text fname) :
    min_chunk_chars ≤ c.text.length ∧ c.filename = fname := by
  simp only [chunk_text] at h
  split at h
  · exact absurd h (by simp)
  · exact chunkLoop_mem h

lemma chunk_text_indices (text : List Char) (fname : String) :
    (chunk_text text fname).map Chunk.chunk_index
      = List.range' 0 (chunk_text text fname).length := by
  simp only [chunk_text]
  split
  · simp
  · exact chunkLoop_indices

lemma trimRight_length_le (l : List Char) : (trimRight l).length ≤ l.length := by
  unfold trimRight
  obtain ⟨k, hk⟩ := dropWhile_eq_drop isPySpace l.reverse
  rw [hk]
  simp

lemma trim_length_le (l : List Char) : (trim l).length ≤ l.length := by
  unfold trim trimLeft
  obtain ⟨k, hk⟩ := dropWhile_eq_drop isPySpace l
  calc (trimRight (l.dropWhile isPySpace)).length
      ≤ (l.dropWhile isPySpace).length := trimRight_length_le _
    _ ≤ l.length := by rw [hk]; simp

lemma chunkLoop_ne_nil_of_first_emit {fname : String} {text : List Char} {fuel start idx : Nat}
    (hs : start < text.length)
    (hemit : min_chunk_chars ≤ (trim (pySlice text start (computeEnd text start))).length)
    (hfuel : 0 < fuel) :
    chunkLoop fname text fuel start idx ≠ [] := by
  cases fuel with
  | zero => omega
  | succ fuel =>
    simp only [chunkLoop, if_pos hs, if_pos hemit]
    by_cases hbr : (text.length : Int) - (min_chunk_chars : Int)
        ≤ ((computeEnd text start - overlap_chars : Nat) : Int)
    · rw [if_pos hbr]; simp
    · rw [if_neg hbr]; simp

/-- C8: for every input text and filename, every chunk returned by `chunk_text` has
text length at least the minimum-chunk threshold (50 tokens · 4 chars = 200
characters), and the chunk_index values of the returned sequence are exactly
0, 1, ..., n-1 in order with no gaps (the index increments only on emission). -/
theorem C8_chunk_invariants (text : List Char) (fname : String) :
    (∀ c ∈ chunk_text text fname, min_chunk_chars ≤ c.text.length)
    ∧ (chunk_text text fname).map Chunk.chunk_index
        = List.range (chunk_text text fname).length := by
  refine ⟨fun c hc => (chunk_text_mem hc).1, ?_⟩
  rw [List.range_eq_range']
  exact chunk_text_indices text fname

/-- Witness for C8 at a concrete input: the 300-character text of letters `a`
produces exactly one chunk, of length 300 ≥ 200 and index 0. -/
theorem C8_chunk_invariants_witness :
    min_chunk_chars ≤ (Chunk.mk (List.replicate 300 'a') "doc.pdf" [1] 0).text.length
    ∧ (chunk_text (List.replicate 300 'a') "doc.pdf").map Chunk.chunk_index
        = List.range (chunk_text (List.replicate 300 'a') "doc.pdf").length :=
  ⟨(C8_chunk_invariants (List.replicate 300 'a') "doc.pdf").1
      (Chunk.mk (List.replicate 300 'a') "doc.pdf" [1] 0) (by decide),
    (C8_chunk_invariants (List.replicate 300 'a') "doc.pdf").2⟩

/-! ### Helper computations for the concrete counterexample inputs
(kept symbolic: the inputs are longer than 2000 characters, so direct kernel
evaluation is avoided) -/

lemma dropWhile_replicate_space (l : List Char) :
    ∀ n, List.dropWhile isPySpace (List.replicate n ' ' ++ l) = List.dropWhile isPySpace l := by
  intro n
  induction n with
  | zero => simp
  | succ n ih =>
    rw [List.replicate_succ, List.cons_append, List.dropWhile_cons, if_pos (by decide)]
    exact ih

lemma trimLeft_cons_of_false {a : Char} (l : List Char) (h : isPySpace a = false) :
    trimLeft (a :: l) = a :: l := by
  unfold trimLeft
  rw [List.dropWhile_cons, h]
  simp

lemma trimRight_append_replicate_space (l : List Char) (n : Nat) :
    trimRight (l ++ List.replicate n ' ') = trimRight l := by
  unfold trimRight
  rw [List.reverse_append, List.reverse_replicate, dropWhile_replicate_space]

lemma trimRight_append_singleton_of_false {c : Char} (l : List Char) (h : isPySpace c = false) :
    trimRight (l ++ [c]) = l ++ [c] := by
  unfold trimRight
  rw [List.reverse_append]
  simp only [List.reverse_cons, List.reverse_nil, List.nil_append, List.singleton_append,
    List.dropWhile_cons, h]
  simp

/-- The concrete input refuting C3: 2100 characters (none of them removable by
trimming at either end), yet `chunk_text` returns no chunk at all, because the
only two chunk windows the loop visits strip down to "ab" and "c". -/
def c3Text : List Char := 'a' :: 'b' :: (List.replicate 2097 ' ' ++ ['c'])

lemma c3Text_len : c3Text.length = 2100 := by
  rw [show c3Text = 'a' :: 'b' :: (List.replicate 2097 ' ' ++ ['c']) from rfl,
    List.length_cons, List.length_cons, List.length_append, List.length_replicate,
    List.length_singleton]

lemma c3Text_trim : trim c3Text = c3Text := by
  unfold trim
  rw [show c3Text = 'a' :: 'b' :: (List.replicate 2097 ' ' ++ ['c']) from rfl]
  rw [trimLeft_cons_of_false _ (by decide)]
  rw [show 'a' :: 'b' :: (List.replicate 2097 ' ' ++ ['c'])
      = ('a' :: 'b' :: List.replicate 2097 ' ') ++ ['c'] by
    rw [List.cons_append, List.cons_append]]
  rw [trimRight_append_singleton_of_false _ (by decide)]

set_option maxRecDepth 2000 in
lemma c3_computeEnd_0 : computeEnd c3Text 0 = 2048 := by
  unfold computeEnd
  rw [if_pos (by rw [c3Text_len]; decide)]
  have hregion : searchRegion c3Text 0 = List.replicate 151 ' ' ++ ['c'] := by
    unfold searchRegion pySlice
    rw [c3Text_len]
    rw [show max (0 + chunk_size_chars - 100) 0 = 1948 from by decide,
      show min (0 + chunk_size_chars + 100) 2100 = 2100 from by decide]
    rw [show c3Text = 'a' :: 'b' :: (List.replicate 2097 ' ' ++ ['c']) from rfl]
    rw [show (1948 : Nat) = 1946 + 1 + 1 from rfl]
    rw [List.drop_succ_cons, List.drop_succ_cons,
      List.drop_append_of_le_length (by rw [List.length_replicate]; decide),
      List.drop_replicate]
    rw [show (2097 : Nat) - 1946 = 151 from rfl]
    rw [List.take_of_length_le
      (by rw [List.length_append, List.length_replicate, List.length_singleton])]
  rw [hregion]
  have hsep : findSepIn (List.replicate 151 ' ' ++ ['c']) sentenceSeps = none := by decide
  rw [hsep]
  decide

lemma c3_slice_0 : trim (pySlice c3Text 0 2048) = ['a', 'b'] := by
  unfold pySlice
  rw [List.drop_zero, Nat.sub_zero]
  rw [show c3Text = 'a' :: 'b' :: (List.replicate 2097 ' ' ++ ['c']) from rfl]
  rw [show (2048 : Nat) = 2046 + 1 + 1 from rfl]
  rw [List.take_succ_cons, List.take_succ_cons,
    List.take_append_of_le_length (by rw [List.length_replicate]; decide),
    List.take_replicate]
  rw [show (2046 : Nat) ⊓ 2097 = 2046 from by decide]
  unfold trim
  rw [trimLeft_cons_of_false _ (by decide)]
  rw [show 'a' :: 'b' :: List.replicate 2046 ' ' = ['a', 'b'] ++ List.replicate 2046 ' ' by
    rw [List.cons_append, List.cons_append, List.nil_append]]
  rw [trimRight_append_replicate_space]
  decide

lemma c3_computeEnd_1848 : computeEnd c3Text 1848 = 3896 := by
  unfold computeEnd
  rw [if_neg (by rw [c3Text_len]; decide)]
  decide

lemma c3_slice_1848 : trim (pySlice c3Text 1848 3896) = ['c'] := by
  unfold pySlice
  rw [show c3Text = 'a' :: 'b' :: (List.replicate 2097 ' ' ++ ['c']) from rfl]
  rw [show (1848 : Nat) = 1846 + 1 + 1 from rfl]
  rw [List.drop_succ_cons, List.drop_succ_cons,
    List.drop_append_of_le_length (by rw [List.length_replicate]; decide),
    List.drop_replicate]
  rw [show (2097 : Nat) - 1846 = 251 from rfl]
  rw [List.take_of_length_le
    (by rw [List.length_append, List.length_replicate, List.length_singleton]; omega)]
  unfold trim trimLeft
  rw [dropWhile_replicate_space]
  decide

lemma c3_loop : ∀ fuel, chunkLoop "doc.pdf" c3Text (fuel + 2) 0 0 = [] := by
  intro fuel
  rw [show fuel + 2 = (fuel + 1) + 1 from rfl]
  simp only [chunkLoop]
  rw [c3_computeEnd_0]
  rw [show (2048 : Nat) - overlap_chars = 1848 from by decide]
  rw [c3_slice_0, c3_computeEnd_1848]
  rw [show (3896 : Nat) - overlap_chars = 3696 from by decide]
  rw [c3_slice_1848]
  rw [if_pos (show 0 < c3Text.length from by rw [c3Text_len]; decide)]
  rw [if_neg (show ¬((c3Text.length : Int) - (min_chunk_chars : Int)
    ≤ ((1848 : Nat) : Int)) from by rw [c3Text_len]; decide)]
  rw [if_neg (show ¬(min_chunk_chars ≤ List.length ['a', 'b']) from by decide)]
  rw [List.nil_append]
  rw [if_pos (show 1848 < c3Text.length from by rw [c3Text_len]; decide)]
  rw [if_pos (show (c3Text.length : Int) - (min_chunk_chars : Int)
    ≤ ((3696 : Nat) : Int) from by rw [c3Text_len]; decide)]
  rw [if_neg (show ¬(min_chunk_chars ≤ List.length ['c']) from by decide)]

/-- C3 is false as stated: `c3Text` has length 2100 ≥ 200 — and even its trimmed
length is 2100 ≥ 200 — yet `chunk_text` returns the empty list. -/
theorem C3_counterexample :
    min_chunk_chars ≤ c3Text.length ∧ min_chunk_chars ≤ (trim c3Text).length
    ∧ chunk_text c3Text "doc.pdf" = [] := by
  refine ⟨by rw [c3Text_len]; decide, by rw [c3Text_trim, c3Text_len]; decide, ?_⟩
  simp only [chunk_text]
  rw [c3Text_trim, c3Text_len, if_neg (by decide)]
  rw [show (2100 : Nat) = 2098 + 2 from rfl]
  exact c3_loop 2098

/-- C3 (amended): if the trimmed text is shorter than the minimum-chunk threshold
(in particular, if the raw text is), `chunk_text` returns the empty sequence; and
if the trimmed length is at least the minimum threshold and at most the chunk size
in characters (2048), `chunk_text` returns at least one chunk. (For trimmed texts
longer than the chunk size the original claim fails, see `C3_counterexample`.) -/
theorem C3_amended (text : List Char) (fname : String) :
    ((trim text).length < min_chunk_chars → chunk_text text fname = [])
    ∧ (text.length < min_chunk_chars → chunk_text text fname = [])
    ∧ (min_chunk_chars ≤ (trim text).length → (trim text).length ≤ chunk_size_chars →
        chunk_text text fname ≠ []) := by
  refine ⟨fun h => ?_, fun h => ?_, fun h1 h2 => ?_⟩
  · unfold chunk_text
    rw [if_pos h]
  · unfold chunk_text
    have := trim_length_le text
    rw [if_pos (by omega)]
  · have hm : min_chunk_chars = 200 := rfl
    unfold chunk_text
    rw [if_neg (by omega)]
    apply chunkLoop_ne_nil_of_first_emit
    · omega
    · have hce : computeEnd (trim text) 0 = chunk_size_chars := by
        unfold computeEnd
        rw [if_neg (by omega)]
        omega
      rw [hce]
      unfold pySlice
      rw [List.drop_zero, Nat.sub_zero, List.take_of_length_le h2, trim_idem]
      exact h1
    · omega

/-- Witness for C3 (amended) at concrete inputs: a 100-character text yields no
chunks, a 300-character text yields at least one. -/
theorem C3_amended_witness :
    chunk_text (List.replicate 100 'a') "doc.pdf" = []
    ∧ chunk_text (List.replicate 300 'a') "doc.pdf" ≠ [] :=
  ⟨(C3_amended (List.replicate 100 'a') "doc.pdf").1 (by decide),
    (C3_amended (List.replicate 300 'a') "doc.pdf").2.2 (by decide) (by decide)⟩

/-- C6: the computed end of every iteration strictly exceeds the current start
(even when the boundary snapping moves the end backwards from the tentative end),
the loop's result is independent of the fuel once the fuel covers the remaining
text (so the Python `while` loop terminates for every input), the loop emits one
chunk per recorded start offset, and the start offsets of the emitted chunks are
strictly increasing. -/
theorem C6_progress_and_termination :
    (∀ (text : List Char) (start : Nat), start < computeEnd text start)
    ∧ (∀ (fname : String) (text : List Char) (f g start idx : Nat),
        text.length - start ≤ f → text.length - start ≤ g →
        chunkLoop fname text f start idx = chunkLoop fname text g start idx)
    ∧ (∀ (fname : String) (text : List Char) (fuel start idx : Nat),
        (chunkLoop fname text fuel start idx).length = (chunkLoopStarts text fuel start).length)
    ∧ (∀ (text : List Char) (fuel start : Nat),
        (chunkLoopStarts text fuel start).Pairwise (· < ·)) :=
  ⟨computeEnd_gt, fun _ _ _ _ _ _ hf hg => chunkLoop_fuel_irrelevant hf hg,
    fun _ _ _ _ _ => chunkLoop_length_starts, fun _ _ _ => chunkLoopStarts_sorted⟩

/-- Witness for C6 at a concrete input. -/
theorem C6_witness :
    0 < computeEnd (List.replicate 300 'a') 0
    ∧ chunkLoop "doc.pdf" (List.replicate 300 'a') 300 0 0
        = chunkLoop "doc.pdf" (List.replicate 300 'a') 301 0 0
    ∧ (chunkLoopStarts (List.replicate 300 'a') 300 0).Pairwise (· < ·) :=
  ⟨C6_progress_and_termination.1 (List.replicate 300 'a') 0,
    C6_progress_and_termination.2.1 "doc.pdf" (List.replicate 300 'a') 300 301 0 0
      (by decide) (by decide),
    C6_progress_and_termination.2.2.2 (List.replicate 300 'a') 300 0⟩

/-! ### The boundary-snapping policy (C4) -/

/-- Modelled from the spec sentence of C4: snap the end to just after the
rightmost occurrence, inside the search window, of ANY sentence-terminator
pattern of the preference list; keep the raw tentative end when none occurs. -/
def computeEndSpec (text : List Char) (start : Nat) : Nat :=
  if start + chunk_size_chars < text.length then
    match (sentenceSeps.filterMap
        (fun sep => (rfind (searchRegion text start) sep).map (fun i => i + sep.length))).max? with
    | some m => max (start + chunk_size_chars - 100) start + m
    | none => start + chunk_size_chars
  else start + chunk_size_chars

/-- The concrete input refuting C4: in its search window a ". " occurs at window
position 0 and a "? " occurs at window position 50; the rightmost terminator
occurrence is the "? ", so the spec end would be 2000, but the code tries ". "
first and snaps to 1950. -/
def c4Text : List Char :=
  List.replicate 1948 'a' ++ ('.' :: ' ' :: List.replicate 48 'b')
    ++ ('?' :: ' ' :: List.replicate 50 'c')

/-- The search window of `c4Text` at start 0 (established in `c4_region`). -/
def c4Region : List Char :=
  '.' :: ' ' :: (List.replicate 48 'b' ++ ('?' :: ' ' :: List.replicate 50 'c'))

lemma c4_len : c4Text.length = 2050 := by
  rw [show c4Text = (List.replicate 1948 'a' ++ ('.' :: ' ' :: List.replicate 48 'b'))
      ++ ('?' :: ' ' :: List.replicate 50 'c') from rfl]
  rw [List.length_append, List.length_append, List.length_replicate, List.length_cons,
    List.length_cons, List.length_replicate, List.length_cons, List.length_cons,
    List.length_replicate]

lemma c4_region : searchRegion c4Text 0 = c4Region := by
  unfold searchRegion pySlice
  rw [c4_len]
  rw [show max (0 + chunk_size_chars - 100) 0 = 1948 from by decide,
    show min (0 + chunk_size_chars + 100) 2050 = 2050 from by decide]
  rw [show c4Text = List.replicate 1948 'a'
      ++ (('.' :: ' ' :: List.replicate 48 'b') ++ ('?' :: ' ' :: List.replicate 50 'c'))
    from by rw [show c4Text = (List.replicate 1948 'a' ++ ('.' :: ' ' :: List.replicate 48 'b'))
        ++ ('?' :: ' ' :: List.replicate 50 'c') from rfl, List.append_assoc]]
  rw [List.drop_append_of_le_length (by rw [List.length_replicate]),
    List.drop_replicate]
  rw [show (1948 : Nat) - 1948 = 0 from rfl, List.replicate_zero, List.nil_append]
  rw [List.take_of_length_le (by
    rw [List.length_append, List.length_cons, List.length_cons, List.length_replicate,
      List.length_cons, List.length_cons, List.length_replicate])]
  rw [show (('.' :: ' ' :: List.replicate 48 'b') ++ ('?' :: ' ' :: List.replicate 50 'c'))
      = c4Region from by
    rw [show c4Region = '.' :: ' ' :: (List.replicate 48 'b'
        ++ ('?' :: ' ' :: List.replicate 50 'c')) from rfl,
      List.cons_append, List.cons_append]]

set_option maxRecDepth 2000 in
lemma c4_computeEnd : computeEnd c4Text 0 = 1950 := by
  unfold computeEnd
  rw [if_pos (by rw [c4_len]; decide)]
  rw [c4_region]
  rw [show findSepIn c4Region sentenceSeps = some (0, ['.', ' ']) from by decide]
  decide

set_option maxRecDepth 2000 in
lemma c4_computeEndSpec : computeEndSpec c4Text 0 = 2000 := by
  unfold computeEndSpec
  rw [if_pos (by rw [c4_len]; decide)]
  rw [c4_region]
  rw [show (sentenceSeps.filterMap
      (fun sep => (rfind c4Region sep).map (fun i => i + sep.length))).max? = some 52
    from by decide]
  decide

/-- C4 is false as stated: the code does not snap to the rightmost occurrence of
ANY pattern of the preference list. -/
theorem C4_counterexample :
    computeEnd c4Text 0 = 1950 ∧ computeEndSpec c4Text 0 = 2000
    ∧ computeEnd c4Text 0 ≠ computeEndSpec c4Text 0 := by
  refine ⟨c4_computeEnd, c4_computeEndSpec, ?_⟩
  rw [c4_computeEnd, c4_computeEndSpec]
  decide

lemma sentenceSeps_shape : ∀ sep ∈ sentenceSeps, ∃ c cs, sep = c :: cs := by
  intro sep hs
  fin_cases hs <;> exact ⟨_, _, rfl⟩

lemma rfind_eq_none_of_no_match {region sep : List Char} (hshape : ∃ c cs, sep = c :: cs)
    (h : ∀ j, matchesAt region sep j = false) : rfind region sep = none := by
  obtain ⟨c, cs, rfl⟩ := hshape
  cases hr : rfind region (c :: cs) with
  | none => rfl
  | some i =>
    have := (rfind_some hr).1
    rw [h i] at this
    exact absurd this (by simp)

lemma findSepIn_eq_none {region : List Char} :
    ∀ {seps}, (∀ sep ∈ seps, rfind region sep = none) → findSepIn region seps = none := by
  intro seps
  induction seps with
  | nil => intro _; rfl
  | cons s rest ih =>
    intro h
    simp only [findSepIn]
    rw [h s (List.mem_cons_self s rest)]
    exact ih (fun x hx => h x (List.mem_cons_of_mem _ hx))

/-- C4 (amended): when the tentative end falls before the text's end, the chunker
snaps the end to just after the rightmost occurrence, inside the ±100-character
window, of the FIRST pattern in the preference order (". ", ".\n", "? ", "!\n",
"! ", "?\n") that occurs in the window at all; only if no pattern occurs does it
keep the raw tentative end. (It does not choose the rightmost occurrence over all
patterns, see `C4_counterexample`.) -/
theorem C4_snapping (text : List Char) (start : Nat)
    (hlt : start + chunk_size_chars < text.length) :
    ((∀ sep ∈ sentenceSeps, ∀ j, matchesAt (searchRegion text start) sep j = false) →
      computeEnd text start = start + chunk_size_chars)
    ∧ (∀ (pre : List (List Char)) (sep : List Char) (post : List (List Char)) (i : Nat),
        sentenceSeps = pre ++ sep :: post →
        (∀ s ∈ pre, ∀ j, matchesAt (searchRegion text start) s j = false) →
        rfind (searchRegion text start) sep = some i →
        matchesAt (searchRegion text start) sep i = true
        ∧ (∀ k, i < k → matchesAt (searchRegion text start) sep k = false)
        ∧ computeEnd text start = max (start + chunk_size_chars - 100) start + i + sep.length)
    ∧ (∀ sep ∈ sentenceSeps, (∃ j, matchesAt (searchRegion text start) sep j = true) →
        ∃ i, rfind (searchRegion text start) sep = some i) := by
  refine ⟨fun hnone => ?_, fun pre sep post i hdec hpre hsep => ?_, fun sep hmem hex => ?_⟩
  · unfold computeEnd
    rw [if_pos hlt, findSepIn_eq_none
      (fun s hs => rfind_eq_none_of_no_match (sentenceSeps_shape s hs) (hnone s hs))]
  · have hmem : sep ∈ sentenceSeps := by
      rw [hdec]
      exact List.mem_append_right pre (List.mem_cons_self sep post)
    obtain ⟨c, cs, rfl⟩ := sentenceSeps_shape sep hmem
    obtain ⟨hmatch, hmax⟩ := rfind_some hsep
    refine ⟨hmatch, hmax, ?_⟩
    unfold computeEnd
    rw [if_pos hlt, hdec, findSepIn_first
      (fun s hs => rfind_eq_none_of_no_match
        (sentenceSeps_shape s (by rw [hdec]; exact List.mem_append_left _ hs))
        (hpre s hs)) hsep]
  · obtain ⟨c, cs, rfl⟩ := sentenceSeps_shape sep hmem
    exact rfind_exists_of_matches hex

set_option maxRecDepth 2000 in
/-- Witness for C4 (amended) at the concrete input `c4Text`: ". " is the first
pattern in preference order that occurs in the window, its rightmost occurrence
is at window position 0, and the snapped end is 1948 + 0 + 2. -/
theorem C4_snapping_witness :
    matchesAt (searchRegion c4Text 0) ['.', ' '] 0 = true
    ∧ computeEnd c4Text 0
        = max (0 + chunk_size_chars - 100) 0 + 0 + (['.', ' '] : List Char).length := by
  have h := (C4_snapping c4Text 0 (by rw [c4_len]; decide)).2.1 [] ['.', ' ']
    [['.', '\n'], ['?', ' '], ['!', '\n'], ['!', ' '], ['?', '\n']] 0 rfl (by simp)
    (by rw [c4_region]; decide)
  exact ⟨h.1, h.2.2⟩

/-! ### Decimal representations and record-id uniqueness -/

lemma digitChar_toNat : ∀ d, d < 10 → (digitChar d).toNat = 48 + d := by
  intro d hd
  interval_cases d <;> decide

lemma digitChar_ne_underscore (d : Nat) : digitChar d ≠ '_' := by
  match d with
  | 0 | 1 | 2 | 3 | 4 | 5 | 6 | 7 | 8 | 9 => decide
  | n + 10 => exact (by decide : ('*' : Char) ≠ '_')

lemma digitChar_inj {d1 d2 : Nat} (h1 : d1 < 10) (h2 : d2 < 10)
    (heq : digitChar d1 = digitChar d2) : d1 = d2 := by
  have := congrArg Char.toNat heq
  rw [digitChar_toNat d1 h1, digitChar_toNat d2 h2] at this
  omega

lemma natReprAux_fuel : ∀ n f g, n < f → n < g → natReprAux f n = natReprAux g n := by
  intro n
  induction n using Nat.strong_induction_on with
  | _ n ih =>
    intro f g hf hg
    cases f with
    | zero => omega
    | succ f =>
      cases g with
      | zero => omega
      | succ g =>
        simp only [natReprAux]
        by_cases h10 : n < 10
        · rw [if_pos h10, if_pos h10]
        · rw [if_neg h10, if_neg h10]
          have hdiv : n / 10 < n := Nat.div_lt_self (by omega) (by omega)
          rw [ih (n / 10) hdiv f g (by omega) (by omega)]

lemma natRepr_eq (n : Nat) :
    natRepr n = if n < 10 then [digitChar n]
      else natRepr (n / 10) ++ [digitChar (n % 10)] := by
  unfold natRepr
  rw [show natReprAux (n + 1) n
      = if n < 10 then [digitChar n] else natReprAux n (n / 10) ++ [digitChar (n % 10)]
    from by simp only [natReprAux]]
  by_cases h10 : n < 10
  · rw [if_pos h10, if_pos h10]
  · rw [if_neg h10, if_neg h10]
    have hdiv : n / 10 < n := Nat.div_lt_self (by omega) (by omega)
    rw [natReprAux_fuel (n / 10) n (n / 10 + 1) hdiv (by omega)]

lemma natRepr_ne_nil (n : Nat) : natRepr n ≠ [] := by
  rw [natRepr_eq]
  by_cases h10 : n < 10
  · rw [if_pos h10]; simp
  · rw [if_neg h10]; simp

lemma natRepr_no_underscore : ∀ n, ∀ c ∈ natRepr n, c ≠ '_' := by
  intro n
  induction n using Nat.strong_induction_on with
  | _ n ih =>
    intro c hc
    rw [natRepr_eq] at hc
    by_cases h10 : n < 10
    · rw [if_pos h10] at hc
      simp at hc
      subst hc
      exact digitChar_ne_underscore n
    · rw [if_neg h10] at hc
      rcases List.mem_append.mp hc with h1 | h2
      · exact ih (n / 10) (Nat.div_lt_self (by omega) (by omega)) c h1
      · simp at h2
        subst h2
        exact digitChar_ne_underscore (n % 10)

lemma natRepr_inj : ∀ m n, natRepr m = natRepr n → m = n := by
  intro m
  induction m using Nat.strong_induction_on with
  | _ m ih =>
    intro n heq
    rw [natRepr_eq m, natRepr_eq n] at heq
    by_cases hm : m < 10 <;> by_cases hn : n < 10
    · rw [if_pos hm, if_pos hn] at heq
      simp at heq
      exact digitChar_inj hm hn heq
    · rw [if_pos hm, if_neg hn] at heq
      cases hnr : natRepr (n / 10) with
      | nil => exact absurd hnr (natRepr_ne_nil _)
      | cons hd tl =>
        rw [hnr] at heq
        have hlen := congrArg List.length heq
        simp only [List.length_singleton, List.cons_append, List.length_cons,
          List.length_append] at hlen
        omega
    · rw [if_neg hm, if_pos hn] at heq
      cases hnr : natRepr (m / 10) with
      | nil => exact absurd hnr (natRepr_ne_nil _)
      | cons hd tl =>
        rw [hnr] at heq
        have hlen := congrArg List.length heq
        simp only [List.length_singleton, List.cons_append, List.length_cons,
          List.length_append] at hlen
        omega
    · rw [if_neg hm, if_neg hn] at heq
      obtain ⟨h1, h2⟩ := List.append_inj' heq (by simp)
      have hdiv : m / 10 = n / 10 :=
        ih (m / 10) (Nat.div_lt_self (by omega) (by omega)) (n / 10) h1
      simp at h2
      have hmod := digitChar_inj (Nat.mod_lt m (by omega)) (Nat.mod_lt n (by omega)) h2
      omega

lemma append_sep_inj : ∀ (f1 f2 d1 d2 : List Char),
    (∀ c ∈ d1, c ≠ '_') → (∀ c ∈ d2, c ≠ '_') →
    f1 ++ '_' :: d1 = f2 ++ '_' :: d2 → f1 = f2 ∧ d1 = d2 := by
  intro f1
  induction f1 with
  | nil =>
    intro f2 d1 d2 h1 h2 heq
    cases f2 with
    | nil =>
      rw [List.nil_append, List.nil_append] at heq
      injection heq with _ ht
      exact ⟨rfl, ht⟩
    | cons b f2' =>
      rw [List.nil_append, List.cons_append] at heq
      injection heq with hb ht
      exact absurd rfl (h1 '_' (by rw [ht]; exact List.mem_append_right f2' (List.mem_cons_self _ _)))
  | cons a f1' ih =>
    intro f2 d1 d2 h1 h2 heq
    cases f2 with
    | nil =>
      rw [List.nil_append, List.cons_append] at heq
      injection heq with hb ht
      exact absurd rfl
        (h2 '_' (by rw [← ht]; exact List.mem_append_right f1' (List.mem_cons_self _ _)))
    | cons b f2' =>
      rw [List.cons_append, List.cons_append] at heq
      injection heq with hb ht
      obtain ⟨hf, hd⟩ := ih f2' d1 d2 h1 h2 ht
      exact ⟨by rw [hb, hf], hd⟩

lemma mkId_inj {f1 f2 : String} {i1 i2 : Nat} (h : mkId f1 i1 = mkId f2 i2) :
    f1 = f2 ∧ i1 = i2 := by
  have hdata : f1.data ++ '_' :: natRepr i1 = f2.data ++ '_' :: natRepr i2 :=
    congrArg String.data h
  obtain ⟨hf, hd⟩ :=
    append_sep_inj _ _ _ _ (natRepr_no_underscore i1) (natRepr_no_underscore i2) hdata
  exact ⟨String.ext hf, natRepr_inj _ _ hd⟩

/-- Batching in groups of 100 stores exactly one id per chunk, in order. -/
lemma batched_map {β : Type} (g : Chunk → β) :
    ∀ (N : Nat) (l : List Chunk), l.length ≤ N →
      (List.range ((l.length + (batch_size - 1)) / batch_size)).flatMap
        (fun b => ((l.drop (b * batch_size)).take batch_size).map g) = l.map g := by
  intro N
  induction N with
  | zero =>
    intro l hl
    obtain rfl : l = [] := List.length_eq_zero.mp (by omega)
    simp
  | succ N ih =>
    intro l hl
    by_cases h0 : l.length = 0
    · obtain rfl : l = [] := List.length_eq_zero.mp h0
      simp
    · have hbs : batch_size = 100 := rfl
      have hnum : (l.length + (batch_size - 1)) / batch_size
          = ((l.drop batch_size).length + (batch_size - 1)) / batch_size + 1 := by
        rw [List.length_drop, hbs]
        omega
      rw [hnum, List.range_succ_eq_map, List.flatMap_cons]
      simp only [Nat.zero_mul, List.drop_zero]
      rw [List.flatMap_map]
      have hstep : ∀ b : Nat,
          ((l.drop (Nat.succ b * batch_size)).take batch_size).map g
            = (((l.drop batch_size).drop (b * batch_size)).take batch_size).map g := by
        intro b
        rw [List.drop_drop, Nat.succ_mul, Nat.add_comm (b * batch_size) batch_size]
      simp only [hstep]
      rw [ih (l.drop batch_size) (by rw [List.length_drop]; omega)]
      rw [← List.map_append, List.take_append_drop]

lemma storedIds_eq (chunks : List Chunk) :
    storedIds chunks = chunks.map (fun c => mkId c.filename c.chunk_index) := by
  unfold storedIds
  exact batched_map _ chunks.length chunks (le_refl _)

/-! ### The ingestion batch loop -/

lemma processDoc_spec (st : IngestState) (doc : String × Except String (List Char)) :
    (processDoc st doc).all_chunks = st.all_chunks ++ docChunks doc
    ∧ (processDoc st doc).failed_files = st.failed_files ++ (docFailure doc).toList := by
  obtain ⟨f, x⟩ := doc
  cases x with
  | error e => simp [processDoc, docChunks, docFailure]
  | ok t =>
    by_cases htrim : (trim t).isEmpty
    · simp [processDoc, docChunks, docFailure, htrim]
    · by_cases hchunks : (chunk_text t f).isEmpty
      · have : chunk_text t f = [] := List.isEmpty_iff.mp hchunks
        simp [processDoc, docChunks, docFailure, htrim, hchunks, this]
      · simp [processDoc, docChunks, docFailure, htrim, hchunks]

lemma ingest_go : ∀ (docs : List (String × Except String (List Char))) (st : IngestState),
    (docs.foldl processDoc st).all_chunks = st.all_chunks ++ docs.flatMap docChunks
    ∧ (docs.foldl processDoc st).failed_files
      = st.failed_files ++ docs.filterMap docFailure := by
  intro docs
  induction docs with
  | nil => intro st; simp
  | cons d ds ih =>
    intro st
    rw [List.foldl_cons]
    obtain ⟨h1, h2⟩ := ih (processDoc st d)
    obtain ⟨p1, p2⟩ := processDoc_spec st d
    constructor
    · rw [h1, p1, List.flatMap_cons, List.append_assoc]
    · rw [h2, p2, List.filterMap_cons]
      cases hdf : docFailure d with
      | none => simp
      | some x => simp

lemma docChunks_filename {doc : String × Except String (List Char)} {c : Chunk}
    (h : c ∈ docChunks doc) : c.filename = doc.1 := by
  obtain ⟨f, x⟩ := doc
  cases x with
  | error e => exact absurd h (by simp [docChunks])
  | ok t =>
    simp only [docChunks] at h
    split at h
    · exact absurd h (by simp)
    · exact (chunk_text_mem h).2

lemma docChunks_ids_nodup (doc : String × Except String (List Char)) :
    ((docChunks doc).map (fun c => mkId c.filename c.chunk_index)).Nodup := by
  obtain ⟨f, x⟩ := doc
  cases x with
  | error e => simp [docChunks]
  | ok t =>
    simp only [docChunks]
    split
    · simp
    · have hidx : (chunk_text t f).map Chunk.chunk_index
          = List.range' 0 (chunk_text t f).length := chunk_text_indices t f
      have hnodupidx : ((chunk_text t f).map Chunk.chunk_index).Nodup := by
        rw [hidx]; exact List.nodup_range' 0 _
      have hpw : (chunk_text t f).Pairwise (fun a b => a.chunk_index ≠ b.chunk_index) :=
        List.pairwise_map.mp hnodupidx
      have : (chunk_text t f).Pairwise (fun a b =>
          mkId a.filename a.chunk_index ≠ mkId b.filename b.chunk_index) := by
        refine hpw.imp_of_mem ?_
        intro a b _ _ hab heq
        exact hab (mkId_inj heq).2
      exact List.pairwise_map.mpr this

/-- C9: a document whose extracted text is empty (or all whitespace) is recorded
in the failure list with the no-text reason and contributes zero chunks, an
extraction failure is recorded with the exception message and contributes zero
chunks, and the batch loop is a pure fold: every document's contribution to the
chunk list and the failure list is independent of the other documents, so no
single failure aborts the batch. -/
theorem C9_failure_isolation :
    (∀ docs, (ingest_pdfs docs).all_chunks = docs.flatMap docChunks
      ∧ (ingest_pdfs docs).failed_files = docs.filterMap docFailure)
    ∧ (∀ fname t, trim t = [] →
        docChunks (fname, Except.ok t) = []
        ∧ docFailure (fname, Except.ok t) = some (fname, "No text content"))
    ∧ (∀ fname e, docChunks (fname, Except.error e) = []
        ∧ docFailure (fname, Except.error e) = some (fname, e)) := by
  refine ⟨fun docs => ?_, fun fname t ht => ?_, fun fname e => ⟨rfl, rfl⟩⟩
  · obtain ⟨h1, h2⟩ := ingest_go docs { failed_files := [], all_chunks := [] }
    exact ⟨by simpa using h1, by simpa using h2⟩
  · constructor
    · simp [docChunks, ht]
    · simp [docFailure, ht]

/-- Witness for C9 at a concrete corpus: an all-whitespace document is recorded
as a no-text failure, contributes nothing, and the fold characterization holds. -/
theorem C9_failure_isolation_witness :
    docFailure ("empty.pdf", Except.ok (List.replicate 5 ' '))
      = some ("empty.pdf", "No text content")
    ∧ docChunks ("empty.pdf", Except.ok (List.replicate 5 ' ')) = []
    ∧ (ingest_pdfs [("empty.pdf", Except.ok (List.replicate 5 ' '))]).all_chunks
        = [("empty.pdf", Except.ok (List.replicate 5 ' '))].flatMap docChunks :=
  ⟨(C9_failure_isolation.2.1 "empty.pdf" (List.replicate 5 ' ') (by decide)).2,
    (C9_failure_isolation.2.1 "empty.pdf" (List.replicate 5 ' ') (by decide)).1,
    (C9_failure_isolation.1 [("empty.pdf", Except.ok (List.replicate 5 ' '))]).1⟩

/-- C7: over a corpus with pairwise-distinct filenames, a full reindex stores one
record id per chunk, each in the exact format `"<filename>_<chunk_index>"`, and no
two stored ids collide. -/
theorem C7_id_uniqueness (docs : List (String × Except String (List Char)))
    (h : (docs.map Prod.fst).Nodup) :
    storedIds (ingest_pdfs docs).all_chunks
      = (ingest_pdfs docs).all_chunks.map (fun c => mkId c.filename c.chunk_index)
    ∧ (storedIds (ingest_pdfs docs).all_chunks).Nodup := by
  refine ⟨storedIds_eq _, ?_⟩
  rw [storedIds_eq]
  have hall : (ingest_pdfs docs).all_chunks = docs.flatMap docChunks := by
    obtain ⟨h1, _⟩ := ingest_go docs { failed_files := [], all_chunks := [] }
    simpa using h1
  rw [hall, List.map_flatMap]
  rw [List.nodup_flatMap]
  constructor
  · intro d _
    exact docChunks_ids_nodup d
  · have hfst : docs.Pairwise (fun d1 d2 => d1.1 ≠ d2.1) := List.pairwise_map.mp h
    refine hfst.imp_of_mem ?_
    intro d1 d2 _ _ hne
    intro x hx1 hx2
    obtain ⟨c1, hc1, rfl⟩ := List.mem_map.mp hx1
    obtain ⟨c2, hc2, heq⟩ := List.mem_map.mp hx2
    have hf1 : c1.filename = d1.1 := docChunks_filename hc1
    have hf2 : c2.filename = d2.1 := docChunks_filename hc2
    have := (mkId_inj heq.symm).1
    exact hne (by rw [← hf1, ← hf2, this])

/-- Witness for C7 at a concrete two-document corpus. -/
theorem C7_id_uniqueness_witness :
    (storedIds (ingest_pdfs [("a.pdf", Except.ok (List.replicate 300 'a')),
      ("b.pdf", Except.ok (List.replicate 300 'b'))]).all_chunks).Nodup :=
  (C7_id_uniqueness [("a.pdf", Except.ok (List.replicate 300 'a')),
    ("b.pdf", Except.ok (List.replicate 300 'b'))] (by decide)).2

/-! ### The reranker (C5, C10) -/

/-- A deterministic stand-in cross-encoder used for concrete witnesses. -/
def score0 : String → String → ℚ := fun _ t => if t = "b" then 2 else 1

/-- A concrete candidate list used for concrete witnesses. -/
def demoResults : List SearchResult :=
  [{ text := "a", filename := "f1.pdf", chunk_index := 0, distance := 1/2, rerank_score := 0 },
    { text := "b", filename := "f2.pdf", chunk_index := 1, distance := 3/4, rerank_score := 0 }]

lemma rerank_cons (score : String → String → ℚ) (query : String)
    (r0 : SearchResult) (rs : List SearchResult) (top_k : Nat) :
    rerank score query (r0 :: rs) top_k
      = (List.insertionSort scoreGE
          ((r0 :: rs).map (fun r => { r with rerank_score := score query r.text })),
        (List.insertionSort scoreGE
          ((r0 :: rs).map (fun r => { r with rerank_score := score query r.text }))).take top_k) := by
  unfold rerank
  rw [if_neg (by simp)]

/-- C5: `rerank` scores every candidate, and returns a list of size
`min(top_k, len(results))`, sorted by descending rerank score, each element of
which is one of the candidates (with its `rerank_score` overwritten by the
cross-encoder score); the empty input yields the empty output with no error. -/
theorem C5_rerank_contract (score : String → String → ℚ) (query : String)
    (results : List SearchResult) (top_k : Nat) :
    ((rerank score query results top_k).2).length = min top_k results.length
    ∧ ((rerank score query results top_k).2).Pairwise
        (fun a b => b.rerank_score ≤ a.rerank_score)
    ∧ (∀ r ∈ (rerank score query results top_k).2,
        ∃ c ∈ results, r = { c with rerank_score := score query c.text })
    ∧ (results = [] → (rerank score query results top_k).2 = []) := by
  cases results with
  | nil => simp [rerank]
  | cons r0 rs =>
    rw [rerank_cons]
    have hperm := List.perm_insertionSort scoreGE
      ((r0 :: rs).map (fun r => { r with rerank_score := score query r.text }))
    refine ⟨?_, ?_, ?_, by simp⟩
    · rw [List.length_take, hperm.length_eq, List.length_map]
    · exact List.Pairwise.sublist (List.take_sublist _ _)
        (List.sorted_insertionSort scoreGE _)
    · intro r hr
      have hr2 := List.mem_of_mem_take hr
      have hr3 := hperm.mem_iff.mp hr2
      obtain ⟨c, hc, rfl⟩ := List.mem_map.mp hr3
      exact ⟨c, hc, rfl⟩

/-- Witness for C5 at a concrete query and candidate list. -/
theorem C5_rerank_contract_witness :
    ((rerank score0 "q" demoResults 5).2).length = min 5 demoResults.length
    ∧ ((rerank score0 "q" demoResults 5).2).Pairwise
        (fun a b => b.rerank_score ≤ a.rerank_score) :=
  ⟨(C5_rerank_contract score0 "q" demoResults 5).1,
    (C5_rerank_contract score0 "q" demoResults 5).2.1⟩

/-- C10: `rerank` mutates its input. The caller's list after the call (the first
component of the embedded `rerank`) is the score-overwritten candidate list,
reordered in place by descending rerank score, and what is returned is a prefix
of that mutated list; on the concrete `demoResults` the post-call list differs
from the pre-call list both in element order and in every `rerank_score`. -/
theorem C10_rerank_mutation :
    (∀ (score : String → String → ℚ) (query : String)
        (results : List SearchResult) (top_k : Nat),
      ((rerank score query results top_k).1).Perm
          (results.map (fun r => { r with rerank_score := score query r.text }))
      ∧ ((rerank score query results top_k).1).Pairwise
          (fun a b => b.rerank_score ≤ a.rerank_score)
      ∧ (rerank score query results top_k).2
          = ((rerank score query results top_k).1).take top_k)
    ∧ (rerank score0 "q" demoResults 5).1 ≠ demoResults
    ∧ ((rerank score0 "q" demoResults 5).1).map SearchResult.rerank_score
        ≠ demoResults.map SearchResult.rerank_score := by
  refine ⟨fun score query results top_k => ?_, by decide, by decide⟩
  cases results with
  | nil => simp [rerank]
  | cons r0 rs =>
    rw [rerank_cons]
    exact ⟨List.perm_insertionSort scoreGE _,
      List.sorted_insertionSort scoreGE _, rfl⟩

/-- Witness for C10 at a concrete input. -/
theorem C10_rerank_mutation_witness :
    ((rerank score0 "q" demoResults 5).1).Pairwise
      (fun a b => b.rerank_score ≤ a.rerank_score)
    ∧ (rerank score0 "q" demoResults 5).2
        = ((rerank score0 "q" demoResults 5).1).take 5 :=
  ⟨(C10_rerank_mutation.1 score0 "q" demoResults 5).2.1,
    (C10_rerank_mutation.1 score0 "q" demoResults 5).2.2⟩

/-! ### The answer gate (C1) -/

/-- C1 is false as stated: with no OpenAI credential configured, `generate` on an
empty result list returns the key-configuration error string, not the fixed
"no relevant information" string — the credential check precedes the gate
(query.py lines 139-147). -/
theorem C1_counterexample :
    generate false (fun _ _ => Except.ok "ok") "q" [] = noKeyMsg
    ∧ noKeyMsg ≠ noRelevantMsg :=
  ⟨rfl, by decide⟩

/-- C1 (amended): when a generation client is configured, `generate` on an empty
reranked list returns the fixed "no relevant information" string, and on a
non-empty list whose best candidate has distance > 1.0 and negative rerank score
it returns the same fixed string without invoking generation (the result does not
depend on the injected LLM); when no credential is configured, every call returns
the fixed "[Error: OpenAI API key not configured]" string instead. -/
theorem C1_gate (llm llm' : String → String → Except String String) (query : String)
    (results : List SearchResult) :
    generate true llm query [] = noRelevantMsg
    ∧ (∀ best rest, results = best :: rest → DISTANCE_THRESHOLD < best.distance →
        best.rerank_score < 0 →
        generate true llm query results = noRelevantMsg
        ∧ generate true llm query results = generate true llm' query results)
    ∧ generate false llm query results = noKeyMsg := by
  refine ⟨rfl, fun best rest hres h1 h2 => ?_, rfl⟩
  subst hres
  constructor
  · show (if DISTANCE_THRESHOLD < best.distance ∧ best.rerank_score < 0
        then noRelevantMsg else _) = noRelevantMsg
    rw [if_pos ⟨h1, h2⟩]
  · show (if DISTANCE_THRESHOLD < best.distance ∧ best.rerank_score < 0
        then noRelevantMsg else _)
      = (if DISTANCE_THRESHOLD < best.distance ∧ best.rerank_score < 0
        then noRelevantMsg else _)
    rw [if_pos ⟨h1, h2⟩, if_pos ⟨h1, h2⟩]

/-- The result the C1 witness feeds through the gate: distance 2 > 1, score -1 < 0. -/
def gateResult : SearchResult :=
  { text := "t", filename := "f.pdf", chunk_index := 0, distance := 2, rerank_score := -1 }

/-- Witness for C1 (amended) at a concrete gated result and two different LLMs. -/
theorem C1_gate_witness :
    generate true (fun _ _ => Except.ok "ans") "q" [gateResult] = noRelevantMsg
    ∧ generate true (fun _ _ => Except.ok "ans") "q" [gateResult]
        = generate true (fun _ _ => Except.error "boom") "q" [gateResult] :=
  (C1_gate (fun _ _ => Except.ok "ans") (fun _ _ => Except.error "boom") "q"
    [gateResult]).2.1 gateResult [] rfl (by decide) (by decide)

/-! ### The query pipeline (C2) -/

/-- C2 is violated by the code: with `verbose=True` and zero retrieval results the
verbose log line `reranked_results[0].filename` (query.py line 209) raises
`IndexError` instead of returning a result dict, while the same call with
`verbose=False` returns an answer — evaluating the embedding at the failing
input exhibits the divergence. -/
theorem C2_query_crash :
    queryPipeline true (fun _ _ => Except.ok "ans") (fun _ _ => 0) [] "q" true
      = Except.error "IndexError: list index out of range"
    ∧ queryPipeline true (fun _ _ => Except.ok "ans") (fun _ _ => 0) [] "q" false
      = Except.ok
          { answer := noRelevantMsg, search_results := none, reranked_results := none } :=
  ⟨rfl, rfl⟩

end PDFSearch
